import Mathlib

/-!
Verification development for the PII detection-and-redaction engine
(`PIIDetectorRedactor` in `pii.py`).

Python strings are modelled as `List Char` (the model covers the ASCII
fragment: Python's `\d`, `\w` and `str.isdigit` additionally accept some
non-ASCII Unicode characters, which the repository's vocabulary of inputs
does not use).  Python exceptions are modelled by `Except PyError`; the
functions that cannot raise on any `str` input (slicing, `join`, `split`
never raise) are given total types.
-/

namespace PII

/-- A Python `str`, modelled as its list of characters. -/
abbrev Str := List Char

/-- Convenience: the character list of a Lean string literal. -/
def strL (s : String) : Str := s.data

/-! ### A small model of the Python `re` fragment used by `pii.py`

The four registered patterns are each a sequence of atoms followed by the
`$` anchor (the leading `^` is redundant under `re.match`).  Python's `$`
(without `re.MULTILINE`) matches at the end of the string *or just before a
newline at the end of the string*; `dollarOk` models exactly that. -/

/-- One atom of a regular expression: a counted character class `p{n}`,
a bounded repetition `p{lo,hi}`, `p+`, or a literal character. -/
inductive Atom where
  | exactly : Nat → (Char → Bool) → Atom
  | between : Nat → Nat → (Char → Bool) → Atom
  | onePlus : (Char → Bool) → Atom
  | lit : Char → Atom

/-- Consume exactly `n` characters satisfying `p`; return the rest. -/
def dropAll (p : Char → Bool) : Nat → Str → Option Str
  | 0, s => Option.some s
  | _ + 1, [] => Option.none
  | n + 1, c :: s => if p c then dropAll p n s else Option.none

/-- All rests obtainable by consuming one or more leading characters
satisfying `p`. -/
def plusRests (p : Char → Bool) : Str → List Str
  | [] => []
  | c :: s => if p c then s :: plusRests p s else []

/-- All rests obtainable by matching one atom at the front of `s`. -/
def matAtom : Atom → Str → List Str
  | Atom.lit _, [] => []
  | Atom.lit c, d :: rest => if d = c then [rest] else []
  | Atom.exactly n p, s => (dropAll p n s).toList
  | Atom.between lo hi p, s =>
      (List.range (hi + 1 - lo)).filterMap (fun i => dropAll p (lo + i) s)
  | Atom.onePlus p, s => plusRests p s

/-- All rests obtainable by matching a sequence of atoms at the front. -/
def matSeq : List Atom → Str → List Str
  | [], s => [s]
  | a :: as, s => (matAtom a s).flatMap (matSeq as)

/-- Python `$` (no MULTILINE): the remaining input is empty, or is a single
final newline. -/
def dollarOk : Str → Bool
  | [] => true
  | ['\n'] => true
  | _ => false

/-- `re.match` for a pattern of the form `^atoms$`: some way of matching
the atoms from the start reaches a `$` position. -/
def reFullMatch (pat : List Atom) (s : Str) : Bool :=
  (matSeq pat s).any dollarOk

/-- Python `\d` (ASCII fragment). -/
def isDigitC (c : Char) : Bool := c.isDigit

/-- First character class of the passport pattern: `[A-PR-WY]`. -/
def passportFirst (c : Char) : Bool :=
  ('A' ≤ c && c ≤ 'P') || ('R' ≤ c && c ≤ 'W') || c = 'Y'

/-- `[A-Z0-9]`. -/
def upperAlnum (c : Char) : Bool := ('A' ≤ c && c ≤ 'Z') || c.isDigit

/-- `[\w.-]` (ASCII fragment of `\w`). -/
def wordDotDash (c : Char) : Bool := c.isAlphanum || c = '_' || c = '.' || c = '-'

/-- `^(\d{10})$` — the `phone` pattern. -/
def phonePat : List Atom := [Atom.exactly 10 isDigitC]

/-- `^(\d{12})$` — the `aadhar` pattern. -/
def aadharPat : List Atom := [Atom.exactly 12 isDigitC]

/-- `^[A-PR-WY][A-Z0-9]{6,9}$` — the `passport` pattern. -/
def passportPat : List Atom := [Atom.exactly 1 passportFirst, Atom.between 6 9 upperAlnum]

/-- `^[\w.-]+@[\w.-]+$` — the `upi_id` pattern. -/
def upiPat : List Atom := [Atom.onePlus wordDotDash, Atom.lit '@', Atom.onePlus wordDotDash]

/-! ### Scalar values, records, and Python exceptions -/

/-- A scalar record value: string, number (modelled as an integer),
boolean, or JSON null. -/
inductive Val where
  | str : Str → Val
  | int : Int → Val
  | bool : Bool → Val
  | none : Val
deriving DecidableEq, Repr

/-- The Python exceptions the engine can raise. -/
inductive PyError where
  | valueError
  | indexError
  | attributeError
  | typeError
  | keyError
deriving DecidableEq, Repr

/-- Python truthiness of a scalar: non-empty string, non-zero number,
`True`; `None` is falsy. -/
def truthy : Val → Bool
  | Val.str s => !s.isEmpty
  | Val.int n => n != 0
  | Val.bool b => b
  | Val.none => false

/-- A record: a `dict` from field name to scalar value, modelled as an
association list in insertion order. -/
abbrev Record := List (String × Val)

/-- `record[key]` lookup (first entry with the key). -/
def lookupRec : Record → String → Option Val
  | [], _ => Option.none
  | kv :: rest, k => if kv.1 = k then Option.some kv.2 else lookupRec rest k

/-- `redacted_record[key] = v`: update the entry with the given key in
place, preserving insertion order (keys of a `dict` are unique). -/
def setKey (r : Record) (k : String) (v : Val) : Record :=
  r.map (fun kv => if kv.1 = k then (k, v) else kv)

/-! ### String helpers used by the masking library -/

/-- Python `str.isdigit` (ASCII fragment): non-empty and all digits. -/
def pyIsDigit (s : Str) : Bool := !s.isEmpty && s.all Char.isDigit

/-- Python `s.split(sep, 1)` when it yields two parts; `Option.none` when
`sep` does not occur (Python then yields one part, and two-target
unpacking raises `ValueError`). -/
def splitFirst (sep : Char) : Str → Option (Str × Str)
  | [] => Option.none
  | c :: rest =>
      if c = sep then Option.some ([], rest)
      else (splitFirst sep rest).map (fun pr => (c :: pr.1, pr.2))

/-- Python `s.split('.')`: split at every dot, keeping empty parts. -/
def pySplitDot : Str → List Str
  | [] => [[]]
  | c :: rest =>
      if c = '.' then [] :: pySplitDot rest
      else
        match pySplitDot rest with
        | [] => [[c]]
        | w :: ws => (c :: w) :: ws

/-- Helper for Python `s.split()`: `cur` is the reversed current word. -/
def pySplitWSAux : Str → Str → List Str
  | cur, [] => if cur.isEmpty then [] else [cur.reverse]
  | cur, c :: rest =>
      if c.isWhitespace then
        if cur.isEmpty then pySplitWSAux [] rest
        else cur.reverse :: pySplitWSAux [] rest
      else pySplitWSAux (c :: cur) rest

/-- Python `s.split()`: split on whitespace runs, discarding empties. -/
def pySplitWS (s : Str) : List Str := pySplitWSAux [] s

/-- Python `' '.join(ws)`. -/
def joinSpace : List Str → Str
  | [] => []
  | [w] => w
  | w :: ws => w ++ ' ' :: joinSpace ws

/-! ### The masking library

Pure string functions where the Python cannot raise on a `str` input;
`Except PyError Str` where it can (`mask_upi`/`mask_email` unpack
`split('@', 1)` into two targets and index `[0]`). -/

/-- `phone[:2] + 'X' * 6 + phone[-2:]`. -/
def mask_phone (phone : Str) : Str :=
  phone.take 2 ++ List.replicate 6 'X' ++ phone.drop (phone.length - 2)

/-- `'XXXX XXXX ' + aadhar[-4:]`. -/
def mask_aadhar (aadhar : Str) : Str :=
  strL "XXXX XXXX " ++ aadhar.drop (aadhar.length - 4)

/-- `passport[0] + 'X' * (len-4) + passport[-3:]` when `len > 4`, else
unchanged. -/
def mask_passport (passport : Str) : Str :=
  if passport.length > 4 then
    passport.take 1 ++ List.replicate (passport.length - 4) 'X'
      ++ passport.drop (passport.length - 3)
  else passport

/-- The shared local-part rule: first char plus `max 3 (len-1)` stars for
parts longer than one char, else the part plus `'***'`.  (The same code
appears inline in `mask_name` and in the word branch of `mask_address`.) -/
def maskNamePart (part : Str) : Str :=
  match part with
  | c :: _ :: _ => c :: List.replicate (max 3 (part.length - 1)) '*'
  | _ => part ++ ['*', '*', '*']

/-- `mask_upi`: split at the first `'@'` (`ValueError` when absent); a
10-digit username is masked as a phone, otherwise `username[0]`
(`IndexError` when empty) plus stars; the domain is reattached. -/
def mask_upi (upi : Str) : Except PyError Str :=
  match splitFirst '@' upi with
  | Option.none => Except.error PyError.valueError
  | Option.some (username, domain) =>
      if pyIsDigit username && username.length == 10 then
        Except.ok (mask_phone username ++ '@' :: domain)
      else
        match username with
        | [] => Except.error PyError.indexError
        | c :: _ =>
            Except.ok ((c :: List.replicate (max 3 (username.length - 1)) '*')
              ++ '@' :: domain)

/-- `mask_email`: split at the first `'@'` (`ValueError` when absent);
local parts longer than one char become first char plus `max 3 (len-1)`
stars, else the local part plus `'***'`; the domain is reattached. -/
def mask_email (email : Str) : Except PyError Str :=
  match splitFirst '@' email with
  | Option.none => Except.error PyError.valueError
  | Option.some (localPart, domain) =>
      match localPart with
      | c :: _ :: _ =>
          Except.ok ((c :: List.replicate (max 3 (localPart.length - 1)) '*')
            ++ '@' :: domain)
      | _ => Except.ok ((localPart ++ ['*', '*', '*']) ++ '@' :: domain)

/-- `mask_name`: split on whitespace, mask every part, rejoin with one
space. -/
def mask_name (name : Str) : Str :=
  joinSpace ((pySplitWS name).map maskNamePart)

/-- The word rule of `mask_address`: digit-only words keep first and last
digit (all stars when length ≤ 2); other words follow the name-part rule. -/
def maskAddrWord (word : Str) : Str :=
  if pyIsDigit word then
    if word.length > 2 then
      word.take 1 ++ List.replicate (word.length - 2) '*'
        ++ word.drop (word.length - 1)
    else List.replicate word.length '*'
  else maskNamePart word

/-- `mask_address`: split on whitespace, mask every word, rejoin. -/
def mask_address (address : Str) : Str :=
  joinSpace ((pySplitWS address).map maskAddrWord)

/-- `mask_device_id`: `device_id[0] + '*' * (len-2) + device_id[-1]` when
`len > 2`, else all stars. -/
def mask_device_id (device_id : Str) : Str :=
  if device_id.length > 2 then
    device_id.take 1 ++ List.replicate (device_id.length - 2) '*'
      ++ device_id.drop (device_id.length - 1)
  else List.replicate device_id.length '*'

/-- `mask_ip_address`: keep the first two of exactly four dot-separated
parts, else return the input unchanged. -/
def mask_ip_address (ip : Str) : Str :=
  match pySplitDot ip with
  | [p0, p1, _, _] => p0 ++ '.' :: p1 ++ strL ".*.*"
  | _ => ip

/-! ### Detection and orchestration -/

/-- The keys of the standalone pattern table, in source order. -/
def standalone_keys : List String := ["phone", "aadhar", "passport", "upi_id"]

/-- The combinatorial PII field vocabulary, in source order. -/
def combinatorial_pii : List String := ["name", "email", "address", "device_id", "ip_address"]

/-- `is_standalone_pii`: non-strings never match; otherwise the `elif`
chain over the four registered patterns. -/
def is_standalone_pii (key : String) (value : Val) : Bool :=
  match value with
  | Val.str s =>
      (key == "phone" && reFullMatch phonePat s)
      || (key == "aadhar" && reFullMatch aadharPat s)
      || (key == "passport" && reFullMatch passportPat s)
      || (key == "upi_id" && reFullMatch upiPat s)
  | _ => false

/-- The standalone-mask dispatch of `process_record`, applied only when
`is_standalone_pii` holds (so the value is a string and the key is one of
the four; the fall-through cases mirror what Python would do). -/
def maskStandaloneVal (key : String) (value : Val) : Except PyError Val :=
  match value with
  | Val.str s =>
      if key = "phone" then Except.ok (Val.str (mask_phone s))
      else if key = "aadhar" then Except.ok (Val.str (mask_aadhar s))
      else if key = "passport" then Except.ok (Val.str (mask_passport s))
      else if key = "upi_id" then (mask_upi s).map Val.str
      else Except.ok value
  | _ => Except.error PyError.typeError

/-- `mask_name(value)` on an arbitrary scalar: non-strings have no
`.split`, so Python raises `AttributeError`. -/
def mask_name_val : Val → Except PyError Val
  | Val.str s => Except.ok (Val.str (mask_name s))
  | _ => Except.error PyError.attributeError

/-- `mask_email(value)` on an arbitrary scalar. -/
def mask_email_val : Val → Except PyError Val
  | Val.str s => (mask_email s).map Val.str
  | _ => Except.error PyError.attributeError

/-- `mask_address(value)` on an arbitrary scalar. -/
def mask_address_val : Val → Except PyError Val
  | Val.str s => Except.ok (Val.str (mask_address s))
  | _ => Except.error PyError.attributeError

/-- `mask_device_id(value)` on an arbitrary scalar: `len` of a number is a
`TypeError`. -/
def mask_device_id_val : Val → Except PyError Val
  | Val.str s => Except.ok (Val.str (mask_device_id s))
  | _ => Except.error PyError.typeError

/-- `mask_ip_address(value)` on an arbitrary scalar. -/
def mask_ip_address_val : Val → Except PyError Val
  | Val.str s => Except.ok (Val.str (mask_ip_address s))
  | _ => Except.error PyError.attributeError

/-- The combinatorial-mask dispatch (`elif` chain over the five fields). -/
def maskCombVal (key : String) (value : Val) : Except PyError Val :=
  if key = "name" then mask_name_val value
  else if key = "email" then mask_email_val value
  else if key = "address" then mask_address_val value
  else if key = "device_id" then mask_device_id_val value
  else if key = "ip_address" then mask_ip_address_val value
  else Except.ok value

/-- Appending a key to `combinatorial_fields_present` when the key is in
the combinatorial vocabulary and the value is truthy. -/
def updPresent (present : List String) (kv : String × Val) : List String :=
  if combinatorial_pii.contains kv.1 && truthy kv.2 then present ++ [kv.1]
  else present

/-- The first loop of `process_record`: scan all items, masking standalone
matches into the redacted copy, recording whether any matched, and
collecting the present combinatorial fields. -/
def scanItems : List (String × Val) → Record → Bool → List String →
    Except PyError (Record × Bool × List String)
  | [], red, hasS, present => Except.ok (red, hasS, present)
  | kv :: rest, red, hasS, present =>
      if is_standalone_pii kv.1 kv.2 then
        match maskStandaloneVal kv.1 kv.2 with
        | Except.error e => Except.error e
        | Except.ok mv =>
            scanItems rest (setKey red kv.1 mv) true (updPresent present kv)
      else scanItems rest red hasS (updPresent present kv)

/-- The second loop of `process_record`: for each present combinatorial
field, mask `record[key]` into the redacted copy. -/
def maskPresent (record : Record) : List String → Record → Except PyError Record
  | [], red => Except.ok red
  | k :: rest, red =>
      match lookupRec record k with
      | Option.none => Except.error PyError.keyError
      | Option.some v =>
          match maskCombVal k v with
          | Except.error e => Except.error e
          | Except.ok mv => maskPresent record rest (setKey red k mv)

/-- The tail of `process_record` after the scan: when the combinatorial
threshold is reached (`hasC`), mask every present combinatorial field,
then pair the redacted record with
`has_standalone_pii or has_combinatorial_pii`. -/
def finishRecord (record red : Record) (hasS hasC : Bool) (present : List String) :
    Except PyError (Record × Bool) :=
  if hasC then
    match maskPresent record present red with
    | Except.error e => Except.error e
    | Except.ok red2 => Except.ok (red2, hasS || hasC)
  else Except.ok (red, hasS || hasC)

/-- `process_record`: returns the redacted copy and the PII flag, or the
Python exception the original raises. -/
def process_record (record : Record) : Except PyError (Record × Bool) :=
  match scanItems record record false [] with
  | Except.error e => Except.error e
  | Except.ok (red, hasS, present) =>
      finishRecord record red hasS (decide (2 ≤ present.length)) present

/-- The number of combinatorial-vocabulary fields of a record that hold a
truthy value. -/
def combCount (r : Record) : Nat :=
  (r.filter (fun kv => combinatorial_pii.contains kv.1 && truthy kv.2)).length

/-! ### Observables used by the claims -/

/-- All length-4 windows (contiguous runs of exactly 4 characters) of a
string. -/
def windows4 : Str → List Str
  | a :: b :: c :: d :: rest => [a, b, c, d] :: windows4 (b :: c :: d :: rest)
  | _ => []

/-- Whether `w` occurs at the front of `s`. -/
def isFrontOf : Str → Str → Bool
  | [], _ => true
  | _ :: _, [] => false
  | a :: as, b :: bs => a == b && isFrontOf as bs

/-- Whether `w` occurs contiguously somewhere in `s`. -/
def occursIn (w : Str) : Str → Bool
  | [] => w.isEmpty
  | c :: rest => isFrontOf w (c :: rest) || occursIn w rest

/-- Whether some contiguous run of 4 characters of `orig` occurs
contiguously in `masked`.  A run of length at least 4 survives iff one of
length exactly 4 does, so this decides the claimed property. -/
def survivesRun4 (orig masked : Str) : Bool :=
  (windows4 orig).any (fun w => occursIn w masked)

deriving instance DecidableEq for Except

/-! ## Theorems -/

/-- Consuming exactly `n` class characters succeeds with rest `r` iff the
input splits as a length-`n` all-class prefix followed by `r`. -/
theorem dropAll_eq_some_iff (p : Char → Bool) :
    ∀ (n : Nat) (s r : Str),
      dropAll p n s = Option.some r ↔
        ∃ t, s = t ++ r ∧ t.length = n ∧ t.all p = true := by
  intro n
  induction n with
  | zero =>
      intro s r
      constructor
      · intro h
        refine ⟨[], ?_, rfl, rfl⟩
        simpa [dropAll] using h
      · rintro ⟨t, rfl, hlen, -⟩
        rw [List.length_eq_zero] at hlen
        subst hlen
        simp [dropAll]
  | succ n ih =>
      intro s r
      cases s with
      | nil =>
          simp only [dropAll]
          constructor
          · intro h
            exact absurd h (by simp)
          · rintro ⟨t, ht, hlen, -⟩
            obtain ⟨rfl, rfl⟩ := List.append_eq_nil.mp ht.symm
            simp at hlen
      | cons c s =>
          by_cases hc : p c = true
          · rw [show dropAll p (n + 1) (c :: s) = dropAll p n s by simp [dropAll, hc], ih]
            constructor
            · rintro ⟨t, rfl, hlen, hall⟩
              exact ⟨c :: t, rfl, by simp [hlen], by simp [hc, hall]⟩
            · rintro ⟨t, ht, hlen, hall⟩
              cases t with
              | nil => simp at hlen
              | cons d t =>
                  obtain ⟨rfl, rfl⟩ : d = c ∧ s = t ++ r := by
                    have := ht
                    simp only [List.cons_append, List.cons.injEq] at this
                    exact ⟨this.1.symm, this.2⟩
                  refine ⟨t, rfl, by simpa using hlen, ?_⟩
                  simp only [List.all_cons, Bool.and_eq_true] at hall
                  exact hall.2
          · rw [show dropAll p (n + 1) (c :: s) = Option.none by simp [dropAll, hc]]
            constructor
            · intro h
              exact absurd h (by simp)
            · rintro ⟨t, ht, hlen, hall⟩
              cases t with
              | nil => simp at hlen
              | cons d t =>
                  simp only [List.cons_append, List.cons.injEq] at ht
                  obtain ⟨rfl, -⟩ := ht
                  simp only [List.all_cons, Bool.and_eq_true] at hall
                  exact absurd hall.1 hc

/-- The `phone` pattern matches exactly the 10-digit strings and the
10-digit strings followed by a single trailing newline. -/
theorem reFullMatch_phone_iff (s : Str) :
    reFullMatch phonePat s = true ↔
      (s.length = 10 ∧ s.all isDigitC = true) ∨
      ∃ t, t.length = 10 ∧ t.all isDigitC = true ∧ s = t ++ ['\n'] := by
  cases h : dropAll isDigitC 10 s with
  | none =>
      simp only [reFullMatch, phonePat, matSeq, matAtom, h, Option.toList_none,
        List.flatMap_nil, List.any_nil]
      constructor
      · intro hf
        exact absurd hf (by simp)
      · rintro (⟨hlen, hall⟩ | ⟨t, hlen, hall, rfl⟩)
        · have : dropAll isDigitC 10 s = Option.some [] :=
            (dropAll_eq_some_iff isDigitC 10 s []).mpr ⟨s, by simp, hlen, hall⟩
          rw [h] at this
          exact absurd this (by simp)
        · have : dropAll isDigitC 10 (t ++ ['\n']) = Option.some ['\n'] :=
            (dropAll_eq_some_iff isDigitC 10 (t ++ ['\n']) ['\n']).mpr ⟨t, rfl, hlen, hall⟩
          rw [h] at this
          exact absurd this (by simp)
  | some r =>
      rw [dropAll_eq_some_iff] at h
      obtain ⟨t, rfl, hlen, hall⟩ := h
      have hms : reFullMatch phonePat (t ++ r) = dollarOk r := by
        simp [reFullMatch, phonePat, matSeq, matAtom,
          (dropAll_eq_some_iff isDigitC 10 (t ++ r) r).mpr ⟨t, rfl, hlen, hall⟩]
      rw [hms]
      match r with
      | [] =>
          simp only [dollarOk, List.append_nil]
          exact ⟨fun _ => Or.inl ⟨hlen, hall⟩, fun _ => trivial⟩
      | ['\n'] =>
          exact ⟨fun _ => Or.inr ⟨t, hlen, hall, rfl⟩, fun _ => rfl⟩
      | [c] =>
          constructor
          · intro hd
            by_cases hcn : c = '\n'
            · subst hcn
              exact Or.inr ⟨t, hlen, hall, rfl⟩
            · rw [show dollarOk [c] = false by simp [dollarOk, hcn]] at hd
              exact absurd hd (by simp)
          · rintro (⟨hl, -⟩ | ⟨u, hul, -, hu⟩)
            · simp [hlen] at hl
            · have := List.append_inj hu (hlen.trans hul.symm)
              obtain ⟨-, h2⟩ := this
              obtain rfl : c = '\n' := by simpa using congrArg (fun l => l.headI) h2
              simp [dollarOk]
      | c :: d :: r =>
          rw [show dollarOk (c :: d :: r) = false by simp [dollarOk]]
          constructor
          · intro hd
            exact absurd hd (by simp)
          · rintro (⟨hl, -⟩ | ⟨u, hul, -, hu⟩)
            · simp [hlen] at hl
            · have := List.append_inj hu (hlen.trans hul.symm)
              obtain ⟨-, h2⟩ := this
              simp at h2

/-- A length-10 string is a list of 10 characters. -/
theorem len_decomp10 (s : Str) (h : s.length = 10) :
    ∃ c0 c1 c2 c3 c4 c5 c6 c7 c8 c9 : Char,
      s = [c0, c1, c2, c3, c4, c5, c6, c7, c8, c9] := by
  rcases s with _ | ⟨c0, s⟩; · simp at h
  rcases s with _ | ⟨c1, s⟩; · simp at h
  rcases s with _ | ⟨c2, s⟩; · simp at h
  rcases s with _ | ⟨c3, s⟩; · simp at h
  rcases s with _ | ⟨c4, s⟩; · simp at h
  rcases s with _ | ⟨c5, s⟩; · simp at h
  rcases s with _ | ⟨c6, s⟩; · simp at h
  rcases s with _ | ⟨c7, s⟩; · simp at h
  rcases s with _ | ⟨c8, s⟩; · simp at h
  rcases s with _ | ⟨c9, s⟩; · simp at h
  have hs : s = [] := by
    rw [← List.length_eq_zero]
    simp only [List.length_cons] at h
    omega
  subst hs
  exact ⟨c0, c1, c2, c3, c4, c5, c6, c7, c8, c9, rfl⟩

/-- A length-12 string is a list of 12 characters. -/
theorem len_decomp12 (s : Str) (h : s.length = 12) :
    ∃ c0 c1 c2 c3 c4 c5 c6 c7 c8 c9 c10 c11 : Char,
      s = [c0, c1, c2, c3, c4, c5, c6, c7, c8, c9, c10, c11] := by
  rcases s with _ | ⟨c0, s⟩; · simp at h
  rcases s with _ | ⟨c1, s⟩; · simp at h
  rcases s with _ | ⟨c2, s⟩; · simp at h
  rcases s with _ | ⟨c3, s⟩; · simp at h
  rcases s with _ | ⟨c4, s⟩; · simp at h
  rcases s with _ | ⟨c5, s⟩; · simp at h
  rcases s with _ | ⟨c6, s⟩; · simp at h
  rcases s with _ | ⟨c7, s⟩; · simp at h
  rcases s with _ | ⟨c8, s⟩; · simp at h
  rcases s with _ | ⟨c9, s⟩; · simp at h
  rcases s with _ | ⟨c10, s⟩; · simp at h
  rcases s with _ | ⟨c11, s⟩; · simp at h
  have hs : s = [] := by
    rw [← List.length_eq_zero]
    simp only [List.length_cons] at h
    omega
  subst hs
  exact ⟨c0, c1, c2, c3, c4, c5, c6, c7, c8, c9, c10, c11, rfl⟩

/-- Claim C2, amended: `is_standalone_pii 'phone' s` is true for every
string of exactly 10 decimal digits, and false for every other string
*except* a string of 10 digits followed by a single trailing newline,
which also returns true, because Python's `$` anchor also matches just
before a newline that ends the string (the match is not full-string
anchored in that one case). -/
theorem is_standalone_phone_characterization (s : Str) :
    is_standalone_pii "phone" (Val.str s) = true ↔
      (s.length = 10 ∧ s.all isDigitC = true) ∨
      ∃ t, t.length = 10 ∧ t.all isDigitC = true ∧ s = t ++ ['\n'] := by
  have hred : is_standalone_pii "phone" (Val.str s) = reFullMatch phonePat s := by
    simp [is_standalone_pii]
  rw [hred, reFullMatch_phone_iff]

/-- Claim C2, counterexample: `is_standalone_pii 'phone'` returns `true`
on `"1234567890\n"`, a string of length 11 containing a non-digit, because
Python's `$` also matches just before a trailing newline.  This refutes
the claim that every string of length ≠ 10 or containing a non-digit
returns `false`. -/
theorem phone_trailing_newline_counterexample :
    is_standalone_pii "phone" (Val.str (strL "1234567890\n")) = true
    ∧ (strL "1234567890\n").length = 11
    ∧ (strL "1234567890\n").all isDigitC = false := by
  decide

/-- Claim C3, counterexample: `mask_aadhar` copies the last four
characters of a 12-digit input unchanged into its output, so a contiguous
run of 4 characters of the original survives unmasked, refuting the claim
that no masking function lets a run of ≥ 4 characters survive. -/
theorem mask_aadhar_run4_counterexample :
    survivesRun4 (strL "123456789012") (mask_aadhar (strL "123456789012")) = true := by
  decide

/-- A decimal digit is not the mask character `'X'`. -/
theorem digit_beq_X_false {c : Char} (h : isDigitC c = true) : (c == 'X') = false := by
  cases hc : c == 'X'
  · rfl
  · have hcx : c = 'X' := eq_of_beq hc
    subst hcx
    exact absurd h (by decide)

/-- Claim C3, amended: the no-surviving-run guarantee does not hold of the
whole library: `mask_aadhar` lets the contiguous run of the last 4
characters of every 12-digit input survive unmasked.  For `mask_phone` the
guarantee does hold: on every 10-digit input no contiguous run of 4 (hence
of ≥ 4) original characters survives in the output. -/
theorem mask_run4_amended :
    (∀ s : Str, s.length = 12 → s.all isDigitC = true →
        survivesRun4 s (mask_aadhar s) = true)
    ∧ (∀ s : Str, s.length = 10 → s.all isDigitC = true →
        survivesRun4 s (mask_phone s) = false) := by
  constructor
  · intro s hlen _
    obtain ⟨c0, c1, c2, c3, c4, c5, c6, c7, c8, c9, c10, c11, rfl⟩ := len_decomp12 s hlen
    simp [survivesRun4, windows4, mask_aadhar, strL, occursIn, isFrontOf]
  · intro s hlen hd
    obtain ⟨c0, c1, c2, c3, c4, c5, c6, c7, c8, c9, rfl⟩ := len_decomp10 s hlen
    simp only [List.all_cons, List.all_nil, Bool.and_eq_true, Bool.and_true] at hd
    obtain ⟨h0, h1, h2, h3, h4, h5, h6, h7, h8, h9⟩ := hd
    simp [survivesRun4, windows4, mask_phone, occursIn, isFrontOf,
      digit_beq_X_false, h0, h1, h2, h3, h4, h5, h6, h7, h8, h9]

/-- Witness for the amended claim C3 at the concrete Aadhar number
`'123456789012'` and phone number `'9876543210'`. -/
theorem mask_run4_amended_witness :
    ((strL "123456789012").length = 12
      ∧ (strL "123456789012").all isDigitC = true
      ∧ survivesRun4 (strL "123456789012") (mask_aadhar (strL "123456789012")) = true)
    ∧ ((strL "9876543210").length = 10
      ∧ (strL "9876543210").all isDigitC = true
      ∧ survivesRun4 (strL "9876543210") (mask_phone (strL "9876543210")) = false) :=
  ⟨⟨by decide, by decide,
      mask_run4_amended.1 (strL "123456789012") (by decide) (by decide)⟩,
   ⟨by decide, by decide,
      mask_run4_amended.2 (strL "9876543210") (by decide) (by decide)⟩⟩

/-- Claim C4, counterexample: `mask_email` on the empty string raises
`ValueError` (two-target unpacking of `''.split('@', 1)`), refuting the
claim that no masking function raises on the empty string. -/
theorem mask_email_empty_raises :
    mask_email ([] : Str) = Except.error PyError.valueError := by
  decide

/-- Claim C4, amended: on the empty string, every masking function except
`mask_upi` and `mask_email` returns a degenerate output without raising;
`mask_upi` and `mask_email` raise `ValueError` because the empty string
lacks the `'@'` their two-target unpacking of `split('@', 1)` requires. -/
theorem mask_empty_string_behavior :
    mask_phone ([] : Str) = strL "XXXXXX"
    ∧ mask_aadhar ([] : Str) = strL "XXXX XXXX "
    ∧ mask_passport ([] : Str) = []
    ∧ mask_upi ([] : Str) = Except.error PyError.valueError
    ∧ mask_email ([] : Str) = Except.error PyError.valueError
    ∧ mask_name ([] : Str) = []
    ∧ mask_address ([] : Str) = []
    ∧ mask_device_id ([] : Str) = []
    ∧ mask_ip_address ([] : Str) = [] := by
  decide

/-- Claim C5: on a record whose `email` value lacks `'@'` and that reaches
the combinatorial threshold, `process_record` raises the bare `ValueError`
produced by tuple unpacking inside `mask_email` — an error that carries
neither the field name nor the value, not a `MalformedFieldError` (no such
error exists in the code); it propagates out of `process_record` and, in
the driver, aborts the whole batch. -/
theorem mask_email_missing_at_value_error :
    process_record
      [("name", Val.str (strL "John Doe")),
       ("email", Val.str (strL "johnexample.com"))]
    = Except.error PyError.valueError := by
  decide

/-- Claim C8, counterexample: `mask_email` does not return
`'j***@example.com'` on `'john.doe@example.com'`; the stated rule replaces
the 8-character local part by its first character plus
`max 3 (8-1) = 7` stars. -/
theorem mask_email_docstring_example_counterexample :
    mask_email (strL "john.doe@example.com") ≠ Except.ok (strL "j***@example.com") := by
  decide

/-- Claim C8, amended: `mask_email 'john.doe@example.com'` returns
`'j*******@example.com'`, exactly as the stated rule prescribes (first
character of the local part followed by `max 3 (len-1) = 7` stars, domain
unchanged); the claimed output `'j***@example.com'` (the docstring
example) contradicts the rule. -/
theorem mask_email_example_amended :
    mask_email (strL "john.doe@example.com") = Except.ok (strL "j*******@example.com") := by
  decide

/-- Claim C9, counterexample: `mask_phone` is idempotent on the 10-digit
input `'9876543210'` — re-masking the masked value returns it unchanged —
refuting the claim that every masking function strictly mutates every
already-masked well-shaped value. -/
theorem mask_phone_idempotent_counterexample :
    mask_phone (mask_phone (strL "9876543210")) = mask_phone (strL "9876543210") := by
  decide

/-- Claim C7: on every input of exactly 10 decimal digits, `mask_phone`
returns a string of length 10 whose first 2 and last 2 characters equal
those of the input and whose middle 6 characters are exactly `'XXXXXX'`. -/
theorem mask_phone_shape (s : Str) (hlen : s.length = 10)
    (hd : s.all isDigitC = true) :
    (mask_phone s).length = 10
    ∧ (mask_phone s).take 2 = s.take 2
    ∧ (mask_phone s).drop 8 = s.drop 8
    ∧ ((mask_phone s).drop 2).take 6 = List.replicate 6 'X' := by
  obtain ⟨c0, c1, c2, c3, c4, c5, c6, c7, c8, c9, rfl⟩ := len_decomp10 s hlen
  exact ⟨rfl, rfl, rfl, rfl⟩

/-- Witness for claim C7 at the concrete phone number `'9876543210'`. -/
theorem mask_phone_shape_witness :
    (strL "9876543210").length = 10
    ∧ (strL "9876543210").all isDigitC = true
    ∧ ((mask_phone (strL "9876543210")).length = 10
        ∧ (mask_phone (strL "9876543210")).take 2 = (strL "9876543210").take 2
        ∧ (mask_phone (strL "9876543210")).drop 8 = (strL "9876543210").drop 8
        ∧ ((mask_phone (strL "9876543210")).drop 2).take 6 = List.replicate 6 'X') :=
  ⟨by decide, by decide,
    mask_phone_shape (strL "9876543210") (by decide) (by decide)⟩

/-- Claim C9, amended: every masking function is a deterministic pure
function of its input, but re-masking does not always mutate further:
`mask_phone` is idempotent on every 10-digit input, while `mask_address`
on `'123 Main St'` does mutate the already-masked value again (so
idempotence is not guaranteed either). -/
theorem mask_remask_amended :
    (∀ s : Str, s.length = 10 → s.all isDigitC = true →
        mask_phone (mask_phone s) = mask_phone s)
    ∧ mask_address (mask_address (strL "123 Main St"))
        ≠ mask_address (strL "123 Main St") := by
  constructor
  · intro s hlen _
    obtain ⟨c0, c1, c2, c3, c4, c5, c6, c7, c8, c9, rfl⟩ := len_decomp10 s hlen
    rfl
  · decide

/-- Witness for the amended claim C9 at the concrete phone number
`'9876543210'`. -/
theorem mask_remask_amended_witness :
    (strL "9876543210").length = 10
    ∧ (strL "9876543210").all isDigitC = true
    ∧ mask_phone (mask_phone (strL "9876543210")) = mask_phone (strL "9876543210") :=
  ⟨by decide, by decide,
    mask_remask_amended.1 (strL "9876543210") (by decide) (by decide)⟩

/-- The scan loop of `process_record` reports a standalone match iff some
item matches, and collects exactly the truthy combinatorial fields in
order. -/
theorem scanItems_spec :
    ∀ (items : List (String × Val)) (red : Record) (hasS : Bool)
      (present : List String) (red2 : Record) (hasS2 : Bool)
      (present2 : List String),
      scanItems items red hasS present = Except.ok (red2, hasS2, present2) →
      hasS2 = (hasS || items.any (fun kv => is_standalone_pii kv.1 kv.2))
      ∧ present2 = present ++ (items.filter
          (fun kv => combinatorial_pii.contains kv.1 && truthy kv.2)).map Prod.fst := by
  intro items
  induction items with
  | nil =>
      intro red hasS present red2 hasS2 present2 h
      simp only [scanItems, Except.ok.injEq, Prod.mk.injEq] at h
      obtain ⟨-, rfl, rfl⟩ := h
      simp
  | cons kv rest ih =>
      intro red hasS present red2 hasS2 present2 h
      by_cases hs : is_standalone_pii kv.1 kv.2 = true
      · rw [show scanItems (kv :: rest) red hasS present =
            (match maskStandaloneVal kv.1 kv.2 with
             | Except.error e => Except.error e
             | Except.ok mv =>
                 scanItems rest (setKey red kv.1 mv) true (updPresent present kv))
            by simp [scanItems, hs]] at h
        cases hm : maskStandaloneVal kv.1 kv.2 with
        | error e => rw [hm] at h; exact absurd h (by simp)
        | ok mv =>
            rw [hm] at h
            obtain ⟨h1, h2⟩ := ih _ _ _ _ _ _ h
            constructor
            · rw [h1]
              simp [hs]
            · rw [h2]
              by_cases hp : kv.1 ∈ combinatorial_pii ∧ truthy kv.2 = true
              · simp [updPresent, List.filter_cons, hp.1, hp.2]
              · simp [updPresent, List.filter_cons, hp]
      · rw [show scanItems (kv :: rest) red hasS present =
            scanItems rest red hasS (updPresent present kv)
            by simp [scanItems, hs]] at h
        obtain ⟨h1, h2⟩ := ih _ _ _ _ _ _ h
        constructor
        · rw [h1]
          simp [hs]
        · rw [h2]
          by_cases hp : kv.1 ∈ combinatorial_pii ∧ truthy kv.2 = true
          · simp [updPresent, List.filter_cons, hp.1, hp.2]
          · simp [updPresent, List.filter_cons, hp]

/-- Unfolding equation: lookup on a non-empty record. -/
theorem lookupRec_cons (kv : String × Val) (rest : Record) (k : String) :
    lookupRec (kv :: rest) k =
      if kv.1 = k then Option.some kv.2 else lookupRec rest k := rfl

/-- Unfolding equation: update on a non-empty record. -/
theorem setKey_cons (kv : String × Val) (rest : Record) (k : String) (v : Val) :
    setKey (kv :: rest) k v =
      (if kv.1 = k then (k, v) else kv) :: setKey rest k v := rfl

/-- Updating one key leaves lookups of every other key unchanged. -/
theorem lookupRec_setKey_ne (k k2 : String) (v : Val) (h : k ≠ k2) :
    ∀ r : Record, lookupRec (setKey r k v) k2 = lookupRec r k2 := by
  intro r
  induction r with
  | nil => rfl
  | cons kv rest ih =>
      rw [setKey_cons]
      by_cases hk : kv.1 = k
      · rw [if_pos hk, lookupRec_cons, lookupRec_cons]
        simp [h, hk, ih]
      · rw [if_neg hk, lookupRec_cons, lookupRec_cons]
        simp [ih]

/-- The scan loop does not change the redacted value of a key none of
whose occurrences is a standalone match. -/
theorem scanItems_lookup_eq (k : String) :
    ∀ (items : List (String × Val)) (red : Record) (hasS : Bool)
      (present : List String) (red2 : Record) (hasS2 : Bool)
      (present2 : List String),
      (∀ v : Val, (k, v) ∈ items → is_standalone_pii k v = false) →
      scanItems items red hasS present = Except.ok (red2, hasS2, present2) →
      lookupRec red2 k = lookupRec red k := by
  intro items
  induction items with
  | nil =>
      intro red hasS present red2 hasS2 present2 _ h
      simp only [scanItems, Except.ok.injEq, Prod.mk.injEq] at h
      rw [h.1]
  | cons kv rest ih =>
      intro red hasS present red2 hasS2 present2 hnm h
      by_cases hs : is_standalone_pii kv.1 kv.2 = true
      · have hne : kv.1 ≠ k := by
          intro he
          have : is_standalone_pii k kv.2 = false :=
            hnm kv.2 (by rw [← he]; exact List.mem_cons_self _ _)
          rw [he] at hs
          rw [hs] at this
          exact absurd this (by simp)
        rw [show scanItems (kv :: rest) red hasS present =
            (match maskStandaloneVal kv.1 kv.2 with
             | Except.error e => Except.error e
             | Except.ok mv =>
                 scanItems rest (setKey red kv.1 mv) true (updPresent present kv))
            by simp [scanItems, hs]] at h
        cases hm : maskStandaloneVal kv.1 kv.2 with
        | error e => rw [hm] at h; exact absurd h (by simp)
        | ok mv =>
            rw [hm] at h
            have := ih _ _ _ _ _ _ (fun v hv => hnm v (List.mem_cons_of_mem _ hv)) h
            rw [this, lookupRec_setKey_ne kv.1 k mv hne]
      · rw [show scanItems (kv :: rest) red hasS present =
            scanItems rest red hasS (updPresent present kv)
            by simp [scanItems, hs]] at h
        exact ih _ _ _ _ _ _ (fun v hv => hnm v (List.mem_cons_of_mem _ hv)) h

/-- The combinatorial-mask loop does not change the redacted value of a
key not in the present list. -/
theorem maskPresent_lookup_eq (k : String) (record : Record) :
    ∀ (ks : List String) (red red2 : Record),
      k ∉ ks → maskPresent record ks red = Except.ok red2 →
      lookupRec red2 k = lookupRec red k := by
  intro ks
  induction ks with
  | nil =>
      intro red red2 _ h
      simp only [maskPresent, Except.ok.injEq] at h
      rw [h]
  | cons k2 rest ih =>
      intro red red2 hk h
      have hne : k2 ≠ k := fun he => hk (he ▸ List.mem_cons_self _ _)
      have hkr : k ∉ rest := fun hm => hk (List.mem_cons_of_mem _ hm)
      rw [show maskPresent record (k2 :: rest) red =
          (match lookupRec record k2 with
           | Option.none => Except.error PyError.keyError
           | Option.some v =>
               match maskCombVal k2 v with
               | Except.error e => Except.error e
               | Except.ok mv => maskPresent record rest (setKey red k2 mv))
          from rfl] at h
      split at h
      · exact absurd h (by simp)
      · split at h
        · exact absurd h (by simp)
        · rw [ih _ _ hkr h]
          exact lookupRec_setKey_ne k2 k _ hne red

/-- A key outside the standalone vocabulary is never a standalone match. -/
theorem is_standalone_pii_not_vocab {k : String}
    (h : standalone_keys.contains k = false) (v : Val) :
    is_standalone_pii k v = false := by
  have hm : ¬(k = "phone" ∨ k = "aadhar" ∨ k = "passport" ∨ k = "upi_id") := by
    intro hor
    rcases hor with rfl | rfl | rfl | rfl <;> exact absurd h (by decide)
  have h1 : (k == "phone") = false := by
    cases hb : k == "phone"
    · rfl
    · exact absurd (Or.inl (eq_of_beq hb)) hm
  have h2 : (k == "aadhar") = false := by
    cases hb : k == "aadhar"
    · rfl
    · exact absurd (Or.inr (Or.inl (eq_of_beq hb))) hm
  have h3 : (k == "passport") = false := by
    cases hb : k == "passport"
    · rfl
    · exact absurd (Or.inr (Or.inr (Or.inl (eq_of_beq hb)))) hm
  have h4 : (k == "upi_id") = false := by
    cases hb : k == "upi_id"
    · rfl
    · exact absurd (Or.inr (Or.inr (Or.inr (eq_of_beq hb)))) hm
  cases v with
  | str s => simp [is_standalone_pii, h1, h2, h3, h4]
  | int n => rfl
  | bool b => rfl
  | none => rfl

/-- `List.contains` on string keys is membership. -/
theorem contains_iff_mem (l : List String) (k : String) :
    l.contains k = true ↔ k ∈ l := by
  rw [show l.contains k = l.elem k from rfl]
  exact List.elem_iff

/-- Unfolding equation: `finishRecord` when the threshold is not
reached. -/
theorem finishRecord_false (record red : Record) (hasS : Bool)
    (present : List String) :
    finishRecord record red hasS false present = Except.ok (red, hasS || false) := by
  simp [finishRecord]

/-- The flag returned by `finishRecord` is
`has_standalone or has_combinatorial`. -/
theorem finishRecord_flag (record red : Record) (hasS hasC : Bool)
    (present : List String) (out : Record) (b : Bool)
    (h : finishRecord record red hasS hasC present = Except.ok (out, b)) :
    b = (hasS || hasC) := by
  cases hasC with
  | false =>
      rw [finishRecord_false] at h
      simp only [Except.ok.injEq, Prod.mk.injEq] at h
      exact h.2.symm
  | true =>
      rw [show finishRecord record red hasS true present =
          (match maskPresent record present red with
           | Except.error e => Except.error e
           | Except.ok red2 => Except.ok (red2, hasS || true))
          by simp [finishRecord]] at h
      split at h
      · exact absurd h (by simp)
      · simp only [Except.ok.injEq, Prod.mk.injEq] at h
        exact h.2.symm

/-- `finishRecord` does not change the redacted value of a key not in the
present list. -/
theorem finishRecord_lookup_eq (k : String) (record red : Record)
    (hasS hasC : Bool) (present : List String) (out : Record) (b : Bool)
    (hknp : k ∉ present)
    (h : finishRecord record red hasS hasC present = Except.ok (out, b)) :
    lookupRec out k = lookupRec red k := by
  cases hasC with
  | false =>
      rw [finishRecord_false] at h
      simp only [Except.ok.injEq, Prod.mk.injEq] at h
      rw [← h.1]
  | true =>
      rw [show finishRecord record red hasS true present =
          (match maskPresent record present red with
           | Except.error e => Except.error e
           | Except.ok red2 => Except.ok (red2, hasS || true))
          by simp [finishRecord]] at h
      split at h
      · exact absurd h (by simp)
      · rename_i red2 hmp
        simp only [Except.ok.injEq, Prod.mk.injEq] at h
        rw [← h.1]
        exact maskPresent_lookup_eq k record present red red2 hknp hmp

/-- Claim C1: `process_record` returns `is_pii = true` iff at least one
field of the record is a standalone match, or at least two distinct
combinatorial-vocabulary fields hold truthy values (the record is a dict,
so its keys are distinct). -/
theorem process_record_is_pii_iff (r : Record) (_hnd : (r.map Prod.fst).Nodup)
    (out : Record) (b : Bool)
    (h : process_record r = Except.ok (out, b)) :
    b = true ↔
      ((∃ kv ∈ r, is_standalone_pii kv.1 kv.2 = true) ∨ 2 ≤ combCount r) := by
  rw [show process_record r =
      (match scanItems r r false [] with
       | Except.error e => Except.error e
       | Except.ok (red, hasS, present) =>
           finishRecord r red hasS (decide (2 ≤ present.length)) present)
      from rfl] at h
  split at h
  · exact absurd h (by simp)
  · rename_i red hasS present heq
    obtain ⟨hflag, hpres⟩ := scanItems_spec r r false [] red hasS present heq
    have hb : b = (hasS || decide (2 ≤ present.length)) :=
      finishRecord_flag r red hasS _ present out b h
    have hlen : present.length = combCount r := by
      rw [hpres]
      simp [combCount]
    rw [hb, hflag, hlen]
    simp [List.any_eq_true]

/-- Witness for claim C1 at the concrete record
`{phone: '9876543210'}`. -/
theorem process_record_is_pii_iff_witness :
    (([("phone", Val.str (strL "9876543210"))] : Record).map Prod.fst).Nodup
    ∧ (true = true ↔
        ((∃ kv ∈ ([("phone", Val.str (strL "9876543210"))] : Record),
            is_standalone_pii kv.1 kv.2 = true)
          ∨ 2 ≤ combCount [("phone", Val.str (strL "9876543210"))])) :=
  ⟨by decide,
    process_record_is_pii_iff [("phone", Val.str (strL "9876543210"))] (by decide)
      [("phone", Val.str (strL "98XXXXXX10"))] true (by decide)⟩

/-- Claim C6: in a successfully returned redacted record, every field
whose name is outside both vocabularies is unchanged; every
standalone-vocabulary field none of whose values matches its pattern is
unchanged; and every combinatorial-vocabulary field is unchanged when the
threshold is not reached or the field holds no truthy value. -/
theorem process_record_frame (r : Record) (out : Record) (b : Bool)
    (h : process_record r = Except.ok (out, b)) (k : String) :
    ((standalone_keys.contains k = false ∧ combinatorial_pii.contains k = false) →
        lookupRec out k = lookupRec r k)
    ∧ (standalone_keys.contains k = true →
        (∀ v : Val, (k, v) ∈ r → is_standalone_pii k v = false) →
        lookupRec out k = lookupRec r k)
    ∧ (combinatorial_pii.contains k = true →
        (combCount r < 2 ∨ ∀ v : Val, (k, v) ∈ r → truthy v = false) →
        lookupRec out k = lookupRec r k) := by
  rw [show process_record r =
      (match scanItems r r false [] with
       | Except.error e => Except.error e
       | Except.ok (red, hasS, present) =>
           finishRecord r red hasS (decide (2 ≤ present.length)) present)
      from rfl] at h
  split at h
  · exact absurd h (by simp)
  · rename_i red hasS present heq
    obtain ⟨-, hpres⟩ := scanItems_spec r r false [] red hasS present heq
    simp only [List.nil_append] at hpres
    have presentMem : ∀ k2, k2 ∈ present →
        combinatorial_pii.contains k2 = true
        ∧ ∃ v, (k2, v) ∈ r ∧ truthy v = true := by
      intro k2 hk2
      rw [hpres] at hk2
      simp only [List.mem_map] at hk2
      obtain ⟨kv, hkv, rfl⟩ := hk2
      rw [List.mem_filter] at hkv
      obtain ⟨hmem, hpred⟩ := hkv
      rw [Bool.and_eq_true] at hpred
      exact ⟨hpred.1, kv.2, by simpa using hmem, hpred.2⟩
    have presentLen : present.length = combCount r := by
      rw [hpres]
      simp [combCount]
    refine ⟨?_, ?_, ?_⟩
    · rintro ⟨hsf, hcf⟩
      have hscan : lookupRec red k = lookupRec r k :=
        scanItems_lookup_eq k r r false [] red hasS present
          (fun v _ => is_standalone_pii_not_vocab hsf v) heq
      have hknp : k ∉ present := by
        intro hk2
        obtain ⟨hc, -⟩ := presentMem k hk2
        rw [hc] at hcf
        exact absurd hcf (by simp)
      exact (finishRecord_lookup_eq k r red hasS _ present out b hknp h).trans hscan
    · intro hsv hnomatch
      have hscan : lookupRec red k = lookupRec r k :=
        scanItems_lookup_eq k r r false [] red hasS present
          (fun v hv => hnomatch v hv) heq
      have hcf : combinatorial_pii.contains k = false := by
        have hk : k ∈ standalone_keys := (contains_iff_mem _ _).mp hsv
        have : k = "phone" ∨ k = "aadhar" ∨ k = "passport" ∨ k = "upi_id" := by
          simpa [standalone_keys] using hk
        rcases this with rfl | rfl | rfl | rfl <;> decide
      have hknp : k ∉ present := by
        intro hk2
        obtain ⟨hc, -⟩ := presentMem k hk2
        rw [hc] at hcf
        exact absurd hcf (by simp)
      exact (finishRecord_lookup_eq k r red hasS _ present out b hknp h).trans hscan
    · intro hcv hside
      have hsf : standalone_keys.contains k = false := by
        have hk : k ∈ combinatorial_pii := (contains_iff_mem _ _).mp hcv
        have : k = "name" ∨ k = "email" ∨ k = "address" ∨ k = "device_id"
            ∨ k = "ip_address" := by
          simpa [combinatorial_pii] using hk
        rcases this with rfl | rfl | rfl | rfl | rfl <;> decide
      have hscan : lookupRec red k = lookupRec r k :=
        scanItems_lookup_eq k r r false [] red hasS present
          (fun v _ => is_standalone_pii_not_vocab hsf v) heq
      rcases hside with hlt | hnt
      · have hcfalse : decide (2 ≤ present.length) = false := by
          rw [presentLen]
          exact decide_eq_false (by omega)
        rw [hcfalse, finishRecord_false] at h
        simp only [Except.ok.injEq, Prod.mk.injEq] at h
        rw [← h.1]
        exact hscan
      · have hknp : k ∉ present := by
          intro hk2
          obtain ⟨-, v, hvmem, hvt⟩ := presentMem k hk2
          rw [hnt v hvmem] at hvt
          exact absurd hvt (by simp)
        exact (finishRecord_lookup_eq k r red hasS _ present out b hknp h).trans hscan

/-- Witness for claim C6 at the concrete record
`{other: 'hi', name: 'John'}` and the key `'other'`. -/
theorem process_record_frame_witness :
    ((standalone_keys.contains "other" = false
        ∧ combinatorial_pii.contains "other" = false) →
      lookupRec [("other", Val.str (strL "hi")), ("name", Val.str (strL "John"))] "other"
        = lookupRec [("other", Val.str (strL "hi")), ("name", Val.str (strL "John"))] "other")
    ∧ (standalone_keys.contains "other" = true →
        (∀ v : Val,
          ("other", v) ∈ ([("other", Val.str (strL "hi")),
            ("name", Val.str (strL "John"))] : Record) →
          is_standalone_pii "other" v = false) →
        lookupRec [("other", Val.str (strL "hi")), ("name", Val.str (strL "John"))] "other"
          = lookupRec [("other", Val.str (strL "hi")), ("name", Val.str (strL "John"))] "other")
    ∧ (combinatorial_pii.contains "other" = true →
        (combCount [("other", Val.str (strL "hi")), ("name", Val.str (strL "John"))] < 2
          ∨ ∀ v : Val,
              ("other", v) ∈ ([("other", Val.str (strL "hi")),
                ("name", Val.str (strL "John"))] : Record) →
              truthy v = false) →
        lookupRec [("other", Val.str (strL "hi")), ("name", Val.str (strL "John"))] "other"
          = lookupRec [("other", Val.str (strL "hi")), ("name", Val.str (strL "John"))] "other") :=
  process_record_frame
    [("other", Val.str (strL "hi")), ("name", Val.str (strL "John"))]
    [("other", Val.str (strL "hi")), ("name", Val.str (strL "John"))]
    false (by decide) "other"

/-- Claim C10: there is a record on which `process_record` raises: with
two truthy combinatorial fields of which `ip_address` is a number, the
threshold is reached and `mask_ip_address` is applied to the non-string
value, raising `AttributeError` (`.split` on a number) instead of
returning a pair. -/
theorem process_record_nonstring_raises :
    process_record [("name", Val.str (strL "John")), ("ip_address", Val.int 5)]
    = Except.error PyError.attributeError := by
  decide

end PII
